import Mathlib

/-!
Verification of the snippets-app storage core
(src/snippets-app/src/main.rs).

The program persists named text records ("snippets") through a storage
contract with two backends: a whole-file JSON store (`JsonStorage`) and a
SQLite table store (`SqliteStorage`), selected from the environment
variable `SNIPPETS_APP_STORAGE` by `build_storage_from_env`.

Shallow embedding conventions:
* `Snippet` mirrors `struct Snippet { name, code, created_at }`.
* The Rust `HashMap<String, Snippet>` is modelled as an association list
  with `HashMap`-style operations (`mapInsert` replaces the binding for an
  existing key in place, `mapRemove` deletes the binding, `mapGet` looks
  the key up).
* The JSON file at `JsonStorage.path` is modelled by `FileState`:
  `absent` (the path does not exist), `blank` (the file exists but its
  content trims to the empty string), `stored m` (the file holds a valid
  JSON encoding of the mapping `m`), and `corrupt` (the file exists, is
  non-blank, and fails to parse).  I/O failures of a reachable, readable
  medium are outside the model; the fallible paths that remain (the parse
  failure) return `Except.error` with the source's context message.
* The SQLite `snippets` table is modelled as a list of rows; `save` is
  the `INSERT ... ON CONFLICT(name) DO UPDATE` upsert, `get` the point
  query, `delete` the `DELETE ... WHERE name = ?1` statement.
-/

/-- Mirrors `struct Snippet { name: String, code: String, created_at: String }`
(main.rs lines 13-18). -/
structure Snippet where
  name : String
  code : String
  created_at : String
deriving DecidableEq, Repr

/-- Lookup in the name-to-snippet mapping; mirrors `map.get(name).cloned()`
on `HashMap<String, Snippet>`. -/
def mapGet (n : String) : List (String × Snippet) → Option Snippet
  | [] => none
  | (k, v) :: rest => if k = n then some v else mapGet n rest

/-- Insert-or-replace in the name-to-snippet mapping; mirrors
`map.insert(key, value)` on `HashMap<String, Snippet>`, which replaces the
binding of an existing key. -/
def mapInsert (k : String) (v : Snippet) : List (String × Snippet) → List (String × Snippet)
  | [] => [(k, v)]
  | (k', v') :: rest =>
      if k' = k then (k, v) :: rest else (k', v') :: mapInsert k v rest

/-- Remove a key from the name-to-snippet mapping; mirrors
`map.remove(name)` on `HashMap<String, Snippet>` (observationally: no
binding for the key remains). -/
def mapRemove (k : String) : List (String × Snippet) → List (String × Snippet)
  | [] => []
  | (k', v') :: rest =>
      if k' = k then mapRemove k rest else (k', v') :: mapRemove k rest

/-- The observable state of the JSON file at `JsonStorage.path`. -/
inductive FileState where
  /-- `!self.path.exists()` -/
  | absent
  /-- the file exists and `content.trim().is_empty()` holds -/
  | blank
  /-- the file exists and holds a valid JSON encoding of the mapping `m` -/
  | stored (m : List (String × Snippet))
  /-- the file exists, is non-blank, and `serde_json::from_str` fails -/
  | corrupt
deriving DecidableEq, Repr

/-- Mirrors `struct JsonStorage { path: PathBuf }` (main.rs lines 30-32). -/
structure JsonStorage where
  path : String
deriving DecidableEq, Repr

namespace JsonStorage

/-- Mirrors `JsonStorage::new` (main.rs lines 35-37): `Self { path }`,
an infallible, I/O-free constructor. -/
def new (path : String) : JsonStorage := JsonStorage.mk path

/-- Mirrors `JsonStorage::load_map` (main.rs lines 39-58): a missing file
and a blank file both give the empty mapping; a stored mapping is decoded;
a corrupt file is a parse error with the source's context message. -/
def load_map : FileState → Except String (List (String × Snippet))
  | FileState.absent => Except.ok []
  | FileState.blank => Except.ok []
  | FileState.stored m => Except.ok m
  | FileState.corrupt => Except.error "Failed to parse JSON storage"

/-- Mirrors `JsonStorage::save_map` (main.rs lines 60-70): serialize the
whole mapping and `fs::write` it, fully replacing the file's content.  The
result is the new `FileState` of the path. -/
def save_map (m : List (String × Snippet)) : FileState :=
  FileState.stored m

/-- Mirrors `JsonStorage::save` (main.rs lines 74-78): load the mapping,
insert/replace the entry at `snippet.name`, write the whole mapping back. -/
def save (snippet : Snippet) (st : FileState) : Except String FileState :=
  match load_map st with
  | Except.error e => Except.error e
  | Except.ok m => Except.ok (save_map (mapInsert snippet.name snippet m))

/-- Mirrors `JsonStorage::get` (main.rs lines 80-83): load the mapping and
look the name up; absence is `Except.ok none`, not an error. -/
def get (name : String) (st : FileState) : Except String (Option Snippet) :=
  match load_map st with
  | Except.error e => Except.error e
  | Except.ok m => Except.ok (mapGet name m)

/-- Mirrors `JsonStorage::delete` (main.rs lines 85-89): load the mapping,
remove the entry (a no-op when absent), write the whole mapping back. -/
def delete (name : String) (st : FileState) : Except String FileState :=
  match load_map st with
  | Except.error e => Except.error e
  | Except.ok m => Except.ok (save_map (mapRemove name m))

end JsonStorage

namespace SqliteStorage

/-- Mirrors `SqliteStorage::save` (main.rs lines 126-141): the upsert
`INSERT INTO snippets ... ON CONFLICT(name) DO UPDATE SET code =
excluded.code, created_at = excluded.created_at`.  A row whose `name`
conflicts keeps its `name` and takes the excluded (incoming) `code` and
`created_at`; with `name` as primary key at most one row can conflict, so
updating the first conflicting row is the statement's full effect; with no
conflict the row is inserted. -/
def save (s : Snippet) : List Snippet → List Snippet
  | [] => [s]
  | r :: rest =>
      if r.name = s.name then Snippet.mk r.name s.code s.created_at :: rest
      else r :: save s rest

/-- Mirrors `SqliteStorage::get` (main.rs lines 143-163):
`SELECT name, code, created_at FROM snippets WHERE name = ?1` with
`.optional()` (the unfolding of `rows.find?` on the name predicate); zero
matching rows is `none`, not an error. -/
def get (name : String) : List Snippet → Option Snippet
  | [] => none
  | r :: rest => if r.name = name then some r else get name rest

/-- Mirrors `SqliteStorage::delete` (main.rs lines 165-173):
`DELETE FROM snippets WHERE name = ?1` (the unfolding of `rows.filter` on
the negated name predicate); zero or one affected row, always success. -/
def delete (name : String) : List Snippet → List Snippet
  | [] => []
  | r :: rest => if r.name = name then delete name rest else r :: delete name rest

end SqliteStorage

-- Basic lemmas about the mapping operations.

theorem mapGet_mapInsert (n k : String) (v : Snippet) (m : List (String × Snippet)) :
    mapGet n (mapInsert k v m) = if n = k then some v else mapGet n m := by
  induction m with
  | nil =>
      by_cases h : n = k
      · simp [mapInsert, mapGet, h]
      · simp [mapInsert, mapGet, h, Ne.symm h]
  | cons e rest ih =>
      obtain ⟨k', v'⟩ := e
      by_cases hk : k' = k
      · subst hk
        by_cases hn : n = k'
        · subst hn
          simp [mapInsert, mapGet]
        · simp [mapInsert, mapGet, hn, Ne.symm hn]
      · by_cases hn : k' = n
        · subst hn
          simp [mapInsert, mapGet, hk, Ne.symm hk]
        · simp [mapInsert, mapGet, hk, hn, ih]

theorem mapGet_mapRemove (n k : String) (m : List (String × Snippet)) :
    mapGet n (mapRemove k m) = if n = k then none else mapGet n m := by
  induction m with
  | nil => simp [mapRemove, mapGet]
  | cons e rest ih =>
      obtain ⟨k', v'⟩ := e
      by_cases hk : k' = k
      · subst hk
        by_cases hn : n = k'
        · subst hn
          simpa [mapRemove, mapGet] using ih
        · simpa [mapRemove, mapGet, hn, Ne.symm hn] using ih
      · by_cases hn : k' = n
        · subst hn
          simp [mapRemove, mapGet, hk, Ne.symm hk]
        · simp [mapRemove, mapGet, hk, hn, ih]

-- Behavior of the SQLite table operations.

theorem sqlite_get_save (n : String) (s : Snippet) (rows : List Snippet) :
    SqliteStorage.get n (SqliteStorage.save s rows) =
      if n = s.name then some s else SqliteStorage.get n rows := by
  induction rows with
  | nil =>
      by_cases h : n = s.name
      · simp [SqliteStorage.save, SqliteStorage.get, h]
      · simp [SqliteStorage.save, SqliteStorage.get, h, Ne.symm h]
  | cons r rest ih =>
      by_cases hr : r.name = s.name
      · by_cases hn : n = s.name
        · subst hn
          simp [SqliteStorage.save, SqliteStorage.get, hr]
        · simp [SqliteStorage.save, SqliteStorage.get, hr, hn, Ne.symm hn]
      · by_cases hrn : r.name = n
        · have hns : ¬n = s.name := fun h => hr (hrn.trans h)
          simp [SqliteStorage.save, SqliteStorage.get, hr, hrn, hns]
        · simp [SqliteStorage.save, SqliteStorage.get, hr, hrn, ih]

theorem sqlite_get_delete (n k : String) (rows : List Snippet) :
    SqliteStorage.get n (SqliteStorage.delete k rows) =
      if n = k then none else SqliteStorage.get n rows := by
  induction rows with
  | nil => simp [SqliteStorage.delete, SqliteStorage.get]
  | cons r rest ih =>
      by_cases hr : r.name = k
      · by_cases hn : n = k
        · subst hn
          simpa [SqliteStorage.delete, SqliteStorage.get, hr] using ih
        · have hrn : ¬r.name = n := fun h => hn (h.symm.trans hr)
          have hkn : ¬k = n := fun h => hn h.symm
          simpa [SqliteStorage.delete, SqliteStorage.get, hr, hn, hrn, hkn] using ih
      · by_cases hrn : r.name = n
        · have hnk : ¬n = k := fun h => hr (hrn.trans h)
          simp [SqliteStorage.delete, SqliteStorage.get, hr, hrn, hnk]
        · simp [SqliteStorage.delete, SqliteStorage.get, hr, hrn, ih]

theorem sqlite_delete_delete (k : String) (rows : List Snippet) :
    SqliteStorage.delete k (SqliteStorage.delete k rows) = SqliteStorage.delete k rows := by
  induction rows with
  | nil => rfl
  | cons r rest ih =>
      by_cases hr : r.name = k
      · simpa [SqliteStorage.delete, hr] using ih
      · simp [SqliteStorage.delete, hr, ih]

-- Backend selection from the environment (main.rs lines 180-201).

/-- The split of `str::split_once` at the character level: split at the
first occurrence of `sep`, returning the part before it and the part after
it, or `none` when `sep` does not occur. -/
def splitOnceList (sep : Char) : List Char → Option (List Char × List Char)
  | [] => none
  | c :: cs =>
      if c = sep then some ([], cs)
      else
        match splitOnceList sep cs with
        | none => none
        | some (a, b) => some (c :: a, b)

/-- Mirrors `env_value.split_once(':')` (main.rs line 184):
`str::split_once` on the first occurrence of the separator. -/
def split_once (s : String) (sep : Char) : Option (String × String) :=
  match splitOnceList sep s.toList with
  | none => none
  | some (a, b) => some (a.asString, b.asString)

/-- The backend chosen by `build_storage_from_env`: `Box<dyn SnippetStorage>`
holding either a `JsonStorage` or a `SqliteStorage` at the given path. -/
inductive StorageChoice where
  | jsonStorage (path : String)
  | sqliteStorage (path : String)
deriving DecidableEq, Repr

/-- Mirrors `build_storage_from_env` (main.rs lines 180-201).  The argument
is the value of the `SNIPPETS_APP_STORAGE` environment variable (`none`
when unset, which defaults to `"JSON:snippets.json"`); the string is split
at the first `:`; the kind before it dispatches case-sensitively to the
backend, an unrecognized kind is an error naming the offending value.
`SqliteStorage::new` (open plus idempotent `CREATE TABLE IF NOT EXISTS`)
is modelled as succeeding; its I/O failure modes are outside the model. -/
def build_storage_from_env (envVar : Option String) : Except String StorageChoice :=
  let env_value := envVar.getD "JSON:snippets.json"
  match split_once env_value ':' with
  | none =>
      Except.error
        "SNIPPETS_APP_STORAGE must look like JSON:/path/to/snippets.json or SQLITE:/path/to/snippets.sqlite"
  | some (kind, path) =>
      if kind = "JSON" then Except.ok (StorageChoice.jsonStorage path)
      else if kind = "SQLITE" then Except.ok (StorageChoice.sqliteStorage path)
      else Except.error ("Unsupported storage type: " ++ kind)

theorem splitOnceList_eq_none_iff (sep : Char) (l : List Char) :
    splitOnceList sep l = none ↔ sep ∉ l := by
  induction l with
  | nil => simp [splitOnceList]
  | cons c cs ih =>
      by_cases hc : c = sep
      · simp [splitOnceList, hc]
      · cases h : splitOnceList sep cs with
        | none =>
            simp [splitOnceList, hc, h, Ne.symm hc, ih.mp h]
        | some p =>
            obtain ⟨a, b⟩ := p
            have : sep ∈ cs := by
              by_contra hmem
              rw [ih.mpr hmem] at h
              exact Option.noConfusion h
            simp [splitOnceList, hc, h, this]

theorem splitOnceList_eq_some (sep : Char) (l a b : List Char)
    (h : splitOnceList sep l = some (a, b)) : l = a ++ sep :: b ∧ sep ∉ a := by
  induction l generalizing a b with
  | nil => simp [splitOnceList] at h
  | cons c cs ih =>
      by_cases hc : c = sep
      · subst hc
        simp [splitOnceList] at h
        obtain ⟨ha, hb⟩ := h
        subst ha
        subst hb
        simp
      · cases hs : splitOnceList sep cs with
        | none =>
            simp [splitOnceList, hc, hs] at h
        | some p =>
            obtain ⟨a', b'⟩ := p
            simp [splitOnceList, hc, hs] at h
            obtain ⟨ha, hb⟩ := h
            obtain ⟨hcs, hmem⟩ := ih a' b' hs
            subst hb
            rw [← ha]
            subst hcs
            simp [hmem, Ne.symm hc]

-- Sequences of storage operations issued through the SnippetStorage
-- contract (trait at main.rs lines 20-24), for cross-backend comparison.

/-- One call through the `SnippetStorage` trait. -/
inductive Op where
  | save (s : Snippet)
  | get (name : String)
  | delete (name : String)
deriving DecidableEq, Repr

/-- Run a call sequence against `JsonStorage` and collect the results of
the `get` calls.  A failing `save`/`delete` (corrupt file) leaves the file
unchanged. -/
def jsonTrace : List Op → FileState → List (Except String (Option Snippet))
  | [], _ => []
  | Op.save s :: ops, st =>
      match JsonStorage.save s st with
      | Except.ok st' => jsonTrace ops st'
      | Except.error _ => jsonTrace ops st
  | Op.get n :: ops, st => JsonStorage.get n st :: jsonTrace ops st
  | Op.delete n :: ops, st =>
      match JsonStorage.delete n st with
      | Except.ok st' => jsonTrace ops st'
      | Except.error _ => jsonTrace ops st

/-- Run a call sequence against `SqliteStorage` and collect the results of
the `get` calls. -/
def sqliteTrace : List Op → List Snippet → List (Option Snippet)
  | [], _ => []
  | Op.save s :: ops, rows => sqliteTrace ops (SqliteStorage.save s rows)
  | Op.get n :: ops, rows => SqliteStorage.get n rows :: sqliteTrace ops rows
  | Op.delete n :: ops, rows => sqliteTrace ops (SqliteStorage.delete n rows)

/-- The JSON file and the SQLite table hold the same logical mapping: the
file loads successfully and every name resolves identically. -/
def StatesAgree (st : FileState) (rows : List Snippet) : Prop :=
  ∃ m, JsonStorage.load_map st = Except.ok m ∧
    ∀ n, mapGet n m = SqliteStorage.get n rows

theorem jsonTrace_eq_sqliteTrace (ops : List Op) (st : FileState)
    (rows : List Snippet) (h : StatesAgree st rows) :
    jsonTrace ops st = (sqliteTrace ops rows).map Except.ok := by
  induction ops generalizing st rows with
  | nil => rfl
  | cons op ops ih =>
      obtain ⟨m, hm, hag⟩ := h
      cases op with
      | save s =>
          have hsave : JsonStorage.save s st =
              Except.ok (FileState.stored (mapInsert s.name s m)) := by
            simp [JsonStorage.save, hm, JsonStorage.save_map]
          simp only [jsonTrace, sqliteTrace, hsave]
          exact ih _ _ ⟨mapInsert s.name s m, rfl, fun n => by
            rw [mapGet_mapInsert, sqlite_get_save, hag n]⟩
      | get n =>
          have hget : JsonStorage.get n st = Except.ok (mapGet n m) := by
            simp [JsonStorage.get, hm]
          simp only [jsonTrace, sqliteTrace, List.map_cons, hget, hag n]
          rw [ih _ _ ⟨m, hm, hag⟩]
      | delete n =>
          have hdel : JsonStorage.delete n st =
              Except.ok (FileState.stored (mapRemove n m)) := by
            simp [JsonStorage.delete, hm, JsonStorage.save_map]
          simp only [jsonTrace, sqliteTrace, hdel]
          exact ih _ _ ⟨mapRemove n m, rfl, fun n' => by
            rw [mapGet_mapRemove, sqlite_get_delete, hag n']⟩

-- Filesystem mutations of the JSON backend (for the write-strategy and
-- constructor claims).

/-- A filesystem mutation performed by the JSON backend. -/
inductive FsOp where
  | write (path : String) (data : String)
  | rename (src : String) (dst : String)
deriving DecidableEq, Repr

/-- The filesystem mutations performed by `JsonStorage::save_map`
(main.rs lines 60-70) when writing the serialized mapping `data`: a single
`fs::write(&self.path, data)` straight to the target path. -/
def JsonStorage.save_map_ops (path : String) (data : String) : List FsOp :=
  [FsOp.write path data]

/-- The filesystem mutations performed by `JsonStorage::new`
(main.rs lines 35-37): the body `Self { path }` performs none. -/
def JsonStorage.new_ops (_path : String) : List FsOp :=
  []

/-- Whether a filesystem trace contains a rename (the atomic-replace
step). -/
def usesRename (ops : List FsOp) : Bool :=
  ops.any fun op =>
    match op with
    | FsOp.rename _ _ => true
    | _ => false

-- Helper characterizations of successful JSON saves and deletes.

theorem json_save_eq_ok (r : Snippet) (st st' : FileState)
    (h : JsonStorage.save r st = Except.ok st') :
    ∃ m, JsonStorage.load_map st = Except.ok m ∧
      st' = FileState.stored (mapInsert r.name r m) := by
  unfold JsonStorage.save at h
  cases hl : JsonStorage.load_map st with
  | error e => rw [hl] at h; exact Except.noConfusion h
  | ok m =>
      rw [hl] at h
      simp [JsonStorage.save_map] at h
      exact ⟨m, rfl, h.symm⟩

theorem json_delete_eq_ok (name : String) (st st' : FileState)
    (h : JsonStorage.delete name st = Except.ok st') :
    ∃ m, JsonStorage.load_map st = Except.ok m ∧
      st' = FileState.stored (mapRemove name m) := by
  unfold JsonStorage.delete at h
  cases hl : JsonStorage.load_map st with
  | error e => rw [hl] at h; exact Except.noConfusion h
  | ok m =>
      rw [hl] at h
      simp [JsonStorage.save_map] at h
      exact ⟨m, rfl, h.symm⟩

-- The claims.

/-- Claim C1: for every record and either backend (JSON or SQLITE), if
`save` succeeds then an immediately following `get` of the record's name
on the same backend instance returns `some` of a record equal to the saved
one in all three fields. -/
theorem claim_c1_round_trip :
    (∀ (r : Snippet) (st st' : FileState),
        JsonStorage.save r st = Except.ok st' →
        JsonStorage.get r.name st' = Except.ok (some r)) ∧
    (∀ (r : Snippet) (rows : List Snippet),
        SqliteStorage.get r.name (SqliteStorage.save r rows) = some r) := by
  constructor
  · intro r st st' hsave
    obtain ⟨m, hm, hst'⟩ := json_save_eq_ok r st st' hsave
    subst hst'
    simp [JsonStorage.get, JsonStorage.load_map, mapGet_mapInsert]
  · intro r rows
    simp [sqlite_get_save]

theorem claim_c1_round_trip_witness :
    JsonStorage.get "greet"
        (FileState.stored
          [("greet", Snippet.mk "greet" "print(1)" "2024-01-01T00:00:00Z")]) =
      Except.ok (some (Snippet.mk "greet" "print(1)" "2024-01-01T00:00:00Z")) :=
  claim_c1_round_trip.1 (Snippet.mk "greet" "print(1)" "2024-01-01T00:00:00Z")
    FileState.absent _ rfl

/-- Claim C2: for either backend, saving two records with the same name in
sequence is a full overwrite: the following `get` of that name returns
exactly the second record's values, never the first record's values or a
merge. -/
theorem claim_c2_overwrite :
    (∀ (r1 r2 : Snippet) (st st1 st2 : FileState),
        r1.name = r2.name →
        JsonStorage.save r1 st = Except.ok st1 →
        JsonStorage.save r2 st1 = Except.ok st2 →
        JsonStorage.get r2.name st2 = Except.ok (some r2)) ∧
    (∀ (r1 r2 : Snippet) (rows : List Snippet),
        r1.name = r2.name →
        SqliteStorage.get r2.name
            (SqliteStorage.save r2 (SqliteStorage.save r1 rows)) = some r2) := by
  constructor
  · intro r1 r2 st st1 st2 _ _ h2
    obtain ⟨m2, hm2, hst2⟩ := json_save_eq_ok r2 st1 st2 h2
    subst hst2
    simp [JsonStorage.get, JsonStorage.load_map, mapGet_mapInsert]
  · intro r1 r2 rows _
    simp [sqlite_get_save]

theorem claim_c2_overwrite_witness :
    JsonStorage.get "n" (FileState.stored [("n", Snippet.mk "n" "c2" "t2")]) =
      Except.ok (some (Snippet.mk "n" "c2" "t2")) :=
  claim_c2_overwrite.1 (Snippet.mk "n" "c1" "t1") (Snippet.mk "n" "c2" "t2")
    FileState.absent _ _ rfl rfl rfl

/-- Claim C3: for either backend, `delete` succeeds whether or not the
name is present (twice in a row both succeed), `get` after either delete
returns the explicit absence value, and a missing name is never an error
for `get` or `delete`.  For the JSON backend this holds on every file
state that loads (the only failure mode of `get`/`delete` is a corrupt
file, independent of the name); the SQLite statements always succeed. -/
theorem claim_c3_delete_idempotent :
    (∀ (name : String) (st : FileState) (m : List (String × Snippet)),
        JsonStorage.load_map st = Except.ok m →
        ∃ st1 st2,
          JsonStorage.delete name st = Except.ok st1 ∧
          JsonStorage.get name st1 = Except.ok none ∧
          JsonStorage.delete name st1 = Except.ok st2 ∧
          JsonStorage.get name st2 = Except.ok none) ∧
    (∀ (name : String) (rows : List Snippet),
        SqliteStorage.get name (SqliteStorage.delete name rows) = none ∧
        SqliteStorage.delete name (SqliteStorage.delete name rows) =
          SqliteStorage.delete name rows) := by
  constructor
  · intro name st m hm
    refine ⟨FileState.stored (mapRemove name m),
        FileState.stored (mapRemove name (mapRemove name m)), ?_, ?_, ?_, ?_⟩
    · simp [JsonStorage.delete, hm, JsonStorage.save_map]
    · simp [JsonStorage.get, JsonStorage.load_map, mapGet_mapRemove]
    · simp [JsonStorage.delete, JsonStorage.load_map, JsonStorage.save_map]
    · simp [JsonStorage.get, JsonStorage.load_map, mapGet_mapRemove]
  · intro name rows
    exact ⟨by simp [sqlite_get_delete], sqlite_delete_delete name rows⟩

theorem claim_c3_delete_idempotent_witness :
    ∃ st1 st2,
      JsonStorage.delete "greet" FileState.absent = Except.ok st1 ∧
      JsonStorage.get "greet" st1 = Except.ok none ∧
      JsonStorage.delete "greet" st1 = Except.ok st2 ∧
      JsonStorage.get "greet" st2 = Except.ok none :=
  claim_c3_delete_idempotent.1 "greet" FileState.absent [] rfl

/-- Claim C4: any sequence of save/get/delete calls applied with the same
names and codes to a fresh JSON backend (no file yet) and a fresh SQLITE
backend (empty table) produces the same sequence of `get` results. -/
theorem claim_c4_cross_backend (ops : List Op) :
    jsonTrace ops FileState.absent = (sqliteTrace ops []).map Except.ok :=
  jsonTrace_eq_sqliteTrace ops FileState.absent [] ⟨[], rfl, fun _ => rfl⟩

/-- Claim C5: the backend selector splits the configuration string at the
first `:` (the part before the separator contains no `:` and
reassembles with the separator and the remainder to the original string);
it fails exactly when there is no separator (the malformed-specifier
error) or the kind before the separator is not exactly `JSON` or `SQLITE`
case-sensitively, and in the unrecognized-kind case the error names the
offending value. -/
theorem claim_c5_selector (s : String) :
    (split_once s ':' = none →
        build_storage_from_env (some s) =
          Except.error
            "SNIPPETS_APP_STORAGE must look like JSON:/path/to/snippets.json or SQLITE:/path/to/snippets.sqlite") ∧
    (∀ kind path, split_once s ':' = some (kind, path) →
        s.toList = kind.toList ++ ':' :: path.toList ∧
        ':' ∉ kind.toList ∧
        (kind = "JSON" →
            build_storage_from_env (some s) =
              Except.ok (StorageChoice.jsonStorage path)) ∧
        (kind = "SQLITE" →
            build_storage_from_env (some s) =
              Except.ok (StorageChoice.sqliteStorage path)) ∧
        (kind ≠ "JSON" → kind ≠ "SQLITE" →
            build_storage_from_env (some s) =
              Except.error ("Unsupported storage type: " ++ kind))) ∧
    (split_once s ':' = none ↔ ':' ∉ s.toList) := by
  refine ⟨?_, ?_, ?_⟩
  · intro h
    simp [build_storage_from_env, h]
  · intro kind path h
    have hchar : splitOnceList ':' s.toList = some (kind.toList, path.toList) := by
      unfold split_once at h
      cases hs : splitOnceList ':' s.toList with
      | none => rw [hs] at h; exact Option.noConfusion h
      | some p =>
          obtain ⟨a, b⟩ := p
          rw [hs] at h
          simp only [Option.some.injEq, Prod.mk.injEq] at h
          obtain ⟨ha, hb⟩ := h
          rw [← ha, ← hb, List.toList_asString, List.toList_asString]
    obtain ⟨hl, hmem⟩ := splitOnceList_eq_some ':' s.toList kind.toList path.toList hchar
    refine ⟨hl, hmem, ?_, ?_, ?_⟩
    · intro hk
      simp [build_storage_from_env, h, hk]
    · intro hk
      simp [build_storage_from_env, h, hk]
    · intro h1 h2
      simp [build_storage_from_env, h, h1, h2]
  · constructor
    · intro h
      unfold split_once at h
      cases hs : splitOnceList ':' s.toList with
      | none => exact (splitOnceList_eq_none_iff ':' s.toList).mp hs
      | some p =>
          obtain ⟨a, b⟩ := p
          rw [hs] at h
          exact Option.noConfusion h
    · intro h
      unfold split_once
      rw [(splitOnceList_eq_none_iff ':' s.toList).mpr h]

theorem claim_c5_selector_witness :
    build_storage_from_env (some "FOO:path") =
      Except.error ("Unsupported storage type: " ++ "FOO") :=
  (((claim_c5_selector "FOO:path").2.1 "FOO" "path" (by decide)).2.2.2.2)
    (by decide) (by decide)

/-- Claim C6: `get` of any name on a freshly constructed, never-saved-to
backend returns absence and not an error; the file backend treats a
non-existent storage location and an existing location with blank content
as the empty mapping, and the fresh SQLite table is empty. -/
theorem claim_c6_empty_store (name : String) :
    JsonStorage.get name FileState.absent = Except.ok none ∧
    JsonStorage.get name FileState.blank = Except.ok none ∧
    SqliteStorage.get name [] = none :=
  ⟨rfl, rfl, rfl⟩

/-- Claim C7: with the configuration string absent, the selector defaults
to `JSON:snippets.json` and constructs the JSON backend at the relative
path `snippets.json`. -/
theorem claim_c7_default :
    build_storage_from_env none =
      Except.ok (StorageChoice.jsonStorage "snippets.json") := by
  rfl

/-- Claim C8 (counterexample): the filesystem trace of
`JsonStorage::save_map` is never a write-to-temporary-then-rename pair;
at the concrete path `snippets.json` with serialized content `data` it is
not of that two-step shape for any temporary path. -/
theorem claim_c8_counterexample :
    ¬∃ tmp : String,
        JsonStorage.save_map_ops "snippets.json" "data" =
          [FsOp.write tmp "data", FsOp.rename tmp "snippets.json"] := by
  rintro ⟨tmp, h⟩
  simp [JsonStorage.save_map_ops] at h

/-- Claim C8 (amended): every write performed by the file backend's
`save_map` (reached by both `save` and `delete`) is a single in-place
whole-file write to the target path; no temporary file is written and no
rename is performed, so atomic replacement is not provided. -/
theorem claim_c8_amended (path data : String) :
    JsonStorage.save_map_ops path data = [FsOp.write path data] ∧
    usesRename (JsonStorage.save_map_ops path data) = false :=
  ⟨rfl, rfl⟩

/-- Claim C9: constructing a JSON file backend never fails and performs no
I/O: for every path the constructor returns the storage holding exactly
that path (it is a total function, not a fallible one) and its filesystem
trace is empty. -/
theorem claim_c9_new_infallible (path : String) :
    JsonStorage.new path = JsonStorage.mk path ∧
    (JsonStorage.new path).path = path ∧
    JsonStorage.new_ops path = [] :=
  ⟨rfl, rfl, rfl⟩

/-- Claim C10: the file backend's `delete` always rewrites the storage
file even when the name is absent: on any state that loads as mapping `m`
the resulting file state is the freshly written encoding of `m` minus the
name, and on a fresh backend whose file does not yet exist it creates the
file containing the empty mapping. -/
theorem claim_c10_delete_rewrites :
    (∀ name : String,
        JsonStorage.delete name FileState.absent =
          Except.ok (FileState.stored [])) ∧
    (∀ (name : String) (st : FileState) (m : List (String × Snippet)),
        JsonStorage.load_map st = Except.ok m →
        JsonStorage.delete name st =
          Except.ok (FileState.stored (mapRemove name m))) := by
  constructor
  · intro name
    rfl
  · intro name st m hm
    simp [JsonStorage.delete, hm, JsonStorage.save_map]

theorem claim_c10_delete_rewrites_witness :
    JsonStorage.delete "x" FileState.blank = Except.ok (FileState.stored []) :=
  claim_c10_delete_rewrites.2 "x" FileState.blank [] rfl
